import Mathlib

/-!
# A verification development for the `clausing` Monte Carlo routine

Shallow embedding of `src/main.rs` from the `clausing` repository.  The
program estimates the Clausing factor of a two-stage cylindrical aperture by
tracing particles that are launched at the base plane and diffusely
re-emitted from the walls, and then aggregates per-particle outcomes into
`clausing_factor` and `den_cor`.

Embedding conventions:

* `f64` values are idealized as `ℝ`; `rng.random::<f64>()` draws are an
  explicit stream `f : ℕ → ℝ` consumed at an explicit index carried in the
  particle state, so every theorem quantifies over the random draws.
* The `while notgone` loop is embedded with explicit fuel (`runLoop`).  The
  source's own cutoff (`icount > 1000`) guarantees at most 1001 body
  executions, and fuel `1002` is proved sufficient (`runLoop_fuel_stable`),
  so the fuelled function is the loop's exact semantics.
* The final aggregation divides by `npart` and by the escape count, which
  can be zero.  Beside the real-valued result (Lean's total division) the
  aggregation is also embedded over `FVal`, a floating-point value model
  with `nan` and signed infinities, reproducing IEEE-754 zero-division and
  NaN propagation for exactly those final divisions (the accumulators that
  feed them are exact, so no rounding is involved in that corner).
* `Real.sqrt` of a negative argument is `0` in Lean while `f64::sqrt`
  returns NaN; the only sites where a negative argument can arise are the
  near-tangent intersection corner cases, which no theorem below depends on.
-/

namespace Clausing

/-- Input parameters of the simulation (struct `ClausingParams`,
`src/main.rs` lines 6-13), with `f64` fields idealized as `ℝ` and the
`usize` particle count as `ℕ`. -/
structure ClausingParams where
  thick_screen : ℝ
  thick_accel : ℝ
  r_screen : ℝ
  r_accel : ℝ
  grid_space : ℝ
  npart : ℕ

/-- The normalized geometry computed at the top of `clausing`
(`src/main.rs` lines 30-33): all dimensions are scaled by `r_accel`, the top
radius becoming `1`. -/
structure Geo where
  r_bottom : ℝ
  len_bottom : ℝ
  len_top : ℝ
  length : ℝ

/-- Geometry normalizer (`src/main.rs` lines 30-33): `r_bottom = r_screen /
r_accel`, `len_bottom = (thick_screen + grid_space) / r_accel`, `len_top =
thick_accel / r_accel`, `length = len_top + len_bottom`. -/
noncomputable def normGeo (p : ClausingParams) : Geo where
  r_bottom := p.r_screen / p.r_accel
  len_bottom := (p.thick_screen + p.grid_space) / p.r_accel
  len_top := p.thick_accel / p.r_accel
  length := p.thick_accel / p.r_accel + (p.thick_screen + p.grid_space) / p.r_accel

/-- The cosine-law polar draw shared by the launcher and every re-emission
site (`src/main.rs` lines 47-50, 77-80, 113-116, 138-141):
`costheta = sqrt(1 - u)`, clamped to at most `0.99999`. -/
noncomputable def sampleCosTheta (u : ℝ) : ℝ :=
  if 0.99999 < Real.sqrt (1 - u) then 0.99999 else Real.sqrt (1 - u)

/-- The time-to-radius formula shared by all wall-intersection sites
(`src/main.rs` lines 60-61, 90-91, 104-106, 126-128, 151-152):
`t = (vx*r0 + sqrt((vx^2+vy^2)*rf^2 - (vy*r0)^2)) / (vx^2+vy^2)`. -/
noncomputable def timeToRadius (vx vy r0 rf : ℝ) : ℝ :=
  (vx * r0 + Real.sqrt ((vx ^ 2 + vy ^ 2) * rf ^ 2 - (vy * r0) ^ 2)) / (vx ^ 2 + vy ^ 2)

/-- The per-particle mutable trajectory state of the loop body
(`src/main.rs` locals `r0, z0, vx, vy, vz, z, icount, notgone`), plus the
index `k` of the next unconsumed random draw. -/
structure PDyn where
  r0 : ℝ
  z0 : ℝ
  vx : ℝ
  vy : ℝ
  vz : ℝ
  z : ℝ
  icount : ℕ
  notgone : Bool
  k : ℕ

/-- The run-level accumulators of `clausing` (`src/main.rs` lines 35-39):
escape count, exit-velocity sum, initial-velocity sum, stuck-particle count
and maximum iteration count. -/
structure Acc where
  iescape : ℕ
  vztot : ℝ
  vz0tot : ℝ
  nlost : ℕ
  max_count : ℕ

/-- The all-zero accumulator state at the start of a run. -/
def Acc.zero : Acc := ⟨0, 0, 0, 0, 0⟩

/-- First geometric branch (`src/main.rs` lines 72-93): the particle's `z`
is still below `len_bottom`, so it hits the lower cylinder wall and is
re-emitted from radius `r_bottom`.  Note the assignment pattern of the new
direction: `vz = cos(phi)*sintheta`, `vy = sin(phi)*sintheta`,
`vx = costheta` (lines 85-87). -/
noncomputable def branch1 (g : Geo) (f : ℕ → ℝ) (d : PDyn) : PDyn :=
  if d.z < g.len_bottom then
    let c := sampleCosTheta (f d.k)
    let phi := 2 * Real.pi * f (d.k + 1)
    let st := Real.sqrt (1 - c ^ 2)
    let vz := Real.cos phi * st
    let vy := Real.sin phi * st
    let vx := c
    let t := timeToRadius vx vy g.r_bottom g.r_bottom
    { d with r0 := g.r_bottom, z0 := d.z, vx := vx, vy := vy, vz := vz,
             z := d.z + t * vz, k := d.k + 2 }
  else d

/-- Second geometric branch (`src/main.rs` lines 96-131): the trajectory
crosses the `z = len_bottom` plane from below.  If the radial offset at the
crossing is at most `1` the particle passes into the upper cylinder and the
intersection with radius `1` is computed; otherwise it strikes the upstream
face of the accel grid and is re-emitted downward (`vz = -costheta`). -/
noncomputable def branch2 (g : Geo) (f : ℕ → ℝ) (d : PDyn) : PDyn :=
  if g.len_bottom ≤ d.z ∧ d.z0 < g.len_bottom then
    let t0 := (g.len_bottom - d.z0) / d.vz
    let r := Real.sqrt ((d.r0 - d.vx * t0) ^ 2 + (d.vy * t0) ^ 2)
    if r ≤ 1 then
      let t := timeToRadius d.vx d.vy d.r0 1
      { d with z := d.z0 + d.vz * t }
    else
      let c := sampleCosTheta (f d.k)
      let phi := 2 * Real.pi * f (d.k + 1)
      let st := Real.sqrt (1 - c ^ 2)
      let vx := Real.cos phi * st
      let vy := Real.sin phi * st
      let vz := -c
      let t := timeToRadius vx vy r g.r_bottom
      { d with r0 := r, z0 := g.len_bottom, vx := vx, vy := vy, vz := vz,
               z := g.len_bottom + vz * t, k := d.k + 2 }
  else d

/-- Third geometric branch (`src/main.rs` lines 134-168): the particle's `z`
lies in the upper cylinder, so it is re-emitted from radius `1` (again with
`vx = costheta`, `vz = cos(phi)*sintheta`).  If the new trajectory re-enters
the lower stage, the intersection against radius `r_bottom` is recomputed,
with the square-root term zeroed when the discriminant is negative
(lines 156-167). -/
noncomputable def branch3 (g : Geo) (f : ℕ → ℝ) (d : PDyn) : PDyn :=
  if g.len_bottom ≤ d.z ∧ d.z ≤ g.length then
    let c := sampleCosTheta (f d.k)
    let phi := 2 * Real.pi * f (d.k + 1)
    let st := Real.sqrt (1 - c ^ 2)
    let vz := Real.cos phi * st
    let vy := Real.sin phi * st
    let vx := c
    let t := timeToRadius vx vy 1 1
    let z1 := d.z + t * vz
    if z1 < g.len_bottom then
      let disc := (vx ^ 2 + vy ^ 2) * g.r_bottom ^ 2 - (vy * 1) ^ 2
      let t2 := if disc < 0 then vx * 1 / (vx ^ 2 + vy ^ 2)
                else (vx * 1 + Real.sqrt disc) / (vx ^ 2 + vy ^ 2)
      { d with r0 := 1, z0 := d.z, vx := vx, vy := vy, vz := vz,
               z := d.z + vz * t2, k := d.k + 2 }
    else
      { d with r0 := 1, z0 := d.z, vx := vx, vy := vy, vz := vz,
               z := z1, k := d.k + 2 }
  else d

/-- The exit checks of the loop body (`src/main.rs` lines 171-184), as they
act on the trajectory state: each of `z < 0`, `z > length` and
`icount > 1000` independently clears `notgone`.  None of these checks reads
a field written by an earlier check, so splitting them from the accumulator
updates (`exitAcc`) is faithful to the sequential source. -/
noncomputable def exitDyn (g : Geo) (d : PDyn) : PDyn :=
  let d1 := if d.z < 0 then { d with notgone := false } else d
  let d2 := if g.length < d1.z then { d1 with notgone := false } else d1
  if 1000 < d2.icount then { d2 with notgone := false } else d2

/-- The exit checks of the loop body (`src/main.rs` lines 175-188), as they
act on the accumulators: `z > length` increments `iescape` and adds `vz` to
`vztot`; `icount > 1000` increments `nlost`; `max_count` is raised to
`icount` whenever it is exceeded. -/
noncomputable def exitAcc (g : Geo) (d : PDyn) (a : Acc) : Acc :=
  let a1 := if g.length < d.z then
              { a with iescape := a.iescape + 1, vztot := a.vztot + d.vz }
            else a
  let a2 := if 1000 < d.icount then { a1 with nlost := a1.nlost + 1 } else a1
  if a2.max_count < d.icount then { a2 with max_count := d.icount } else a2

/-- The trajectory state after `icount += 1` and the three geometric
branches of one loop body execution, before the exit checks. -/
noncomputable def postBranch (g : Geo) (f : ℕ → ℝ) (d : PDyn) : PDyn :=
  branch3 g f (branch2 g f (branch1 g f { d with icount := d.icount + 1 }))

/-- One execution of the loop body (`src/main.rs` lines 69-189), trajectory
component: increment `icount`, run the three geometric branches in order,
then apply the exit checks. -/
noncomputable def stepDyn (g : Geo) (f : ℕ → ℝ) (d : PDyn) : PDyn :=
  exitDyn g (postBranch g f d)

/-- One execution of the loop body, accumulator component: the exit checks
applied with the post-branch trajectory state. -/
noncomputable def stepAcc (g : Geo) (f : ℕ → ℝ) (d : PDyn) (a : Acc) : Acc :=
  exitAcc g (postBranch g f d) a

/-- The `while notgone` loop (`src/main.rs` line 69), with explicit fuel.
`runLoop_fuel_stable` below shows any fuel of at least `1002` yields the
loop's exact semantics, because the `icount > 1000` check bounds the body at
1001 executions. -/
noncomputable def runLoop (g : Geo) (f : ℕ → ℝ) : ℕ → PDyn → Acc → PDyn × Acc
  | 0, d, a => (d, a)
  | fuel + 1, d, a =>
      if d.notgone then runLoop g f fuel (stepDyn g f d) (stepAcc g f d a) else (d, a)

/-- The launcher (`src/main.rs` lines 43-62): area-weighted radius
`r0 = r_bottom * sqrt(u)`, base plane `z0 = 0`, cosine-law direction with
`vx = cos(phi)*sintheta`, `vy = sin(phi)*sintheta`, `vz = costheta`, and the
first intersection with radius `r_bottom` already computed into `z`. -/
noncomputable def launchDyn (g : Geo) (f : ℕ → ℝ) (k : ℕ) : PDyn :=
  let r0 := g.r_bottom * Real.sqrt (f k)
  let z0 : ℝ := 0
  let c := sampleCosTheta (f (k + 1))
  let phi := 2 * Real.pi * f (k + 2)
  let st := Real.sqrt (1 - c ^ 2)
  let vx := Real.cos phi * st
  let vy := Real.sin phi * st
  let vz := c
  let t := timeToRadius vx vy r0 g.r_bottom
  { r0 := r0, z0 := z0, vx := vx, vy := vy, vz := vz, z := z0 + vz * t,
    icount := 0, notgone := true, k := k + 3 }

/-- The initial axial velocity of the particle launched at draw index `k`:
the clamped `costheta` that the launcher assigns to `vz` and immediately
adds to `vz0tot` (`src/main.rs` lines 57 and 64). -/
noncomputable def launchVz (_g : Geo) (f : ℕ → ℝ) (k : ℕ) : ℝ :=
  sampleCosTheta (f (k + 1))

/-- Recording the launch velocity into the initial-velocity accumulator
(`src/main.rs` line 64: `vz0tot += vz`). -/
def addInitVz (a : Acc) (v : ℝ) : Acc := { a with vz0tot := a.vz0tot + v }

/-- One iteration of the particle loop (`src/main.rs` lines 42-190): launch
a particle at the current draw index, record its initial `vz`, and run the
trajectory loop to completion.  The pair carries the next draw index and the
updated accumulators across particles. -/
noncomputable def simStepF (g : Geo) (f : ℕ → ℝ) (fuel : ℕ) (s : ℕ × Acc) : ℕ × Acc :=
  let d0 := launchDyn g f s.1
  let a0 := addInitVz s.2 (launchVz g f s.1)
  let r := runLoop g f fuel d0 a0
  (r.1.k, r.2)

/-- The particle loop `for _ipart in 0..npart` (`src/main.rs` line 42). -/
noncomputable def simulateF (g : Geo) (f : ℕ → ℝ) (fuel : ℕ) : ℕ → ℕ × Acc → ℕ × Acc
  | 0, s => s
  | n + 1, s => simulateF g f fuel n (simStepF g f fuel s)

/-- The accumulator state after all `npart` particles, with explicit fuel
for the inner loop. -/
noncomputable def clausingAccumF (p : ClausingParams) (f : ℕ → ℝ) (fuel : ℕ) : Acc :=
  (simulateF (normGeo p) f fuel p.npart (0, Acc.zero)).2

/-- The accumulator state after all `npart` particles.  Fuel `1002` is
sufficient for every input and stream (`clausing_total`). -/
noncomputable def clausingAccum (p : ClausingParams) (f : ℕ → ℝ) : Acc :=
  clausingAccumF p f 1002

/-- Result record (struct `ClausingResults`, `src/main.rs` lines 17-22),
with the two `f64` ratios idealized as `ℝ`. -/
structure ClausingResults where
  clausing_factor : ℝ
  max_count : ℕ
  nlost : ℕ
  den_cor : ℝ

/-- The whole routine (`src/main.rs` lines 26-204) over idealized reals:
run the simulation, then `clausing_factor = r_bottom^2 * iescape / npart`,
`vz0av = vz0tot / npart`, `vzav = vztot / iescape`,
`den_cor = vz0av / vzav` (lines 192-196). -/
noncomputable def clausing (p : ClausingParams) (f : ℕ → ℝ) : ClausingResults :=
  let a := clausingAccum p f
  { clausing_factor := (normGeo p).r_bottom ^ 2 * (a.iescape : ℝ) / (p.npart : ℝ)
  , max_count := a.max_count
  , nlost := a.nlost
  , den_cor := (a.vz0tot / (p.npart : ℝ)) / (a.vztot / (a.iescape : ℝ)) }

/-- A floating-point value: finite (idealized exact), an infinity, or NaN.
Only multiplication and division are modelled, as used by the final
aggregation of `clausing`. -/
inductive FVal where
  | fin : ℝ → FVal
  | posInf : FVal
  | negInf : FVal
  | nan : FVal

/-- IEEE-754 multiplication on `FVal` (finite values exact). -/
noncomputable def FVal.mul : FVal → FVal → FVal
  | nan, _ => nan
  | _, nan => nan
  | fin a, fin b => fin (a * b)
  | fin a, posInf => if a = 0 then nan else if 0 < a then posInf else negInf
  | fin a, negInf => if a = 0 then nan else if 0 < a then negInf else posInf
  | posInf, fin b => if b = 0 then nan else if 0 < b then posInf else negInf
  | negInf, fin b => if b = 0 then nan else if 0 < b then negInf else posInf
  | posInf, posInf => posInf
  | posInf, negInf => negInf
  | negInf, posInf => negInf
  | negInf, negInf => posInf

/-- IEEE-754 division on `FVal` (finite values exact; a zero divisor is
`+0`, which is the only zero that reaches the modelled divisions: they come
from `usize` casts and exactly-zero accumulators). -/
noncomputable def FVal.div : FVal → FVal → FVal
  | nan, _ => nan
  | _, nan => nan
  | fin a, fin b =>
      if b = 0 then (if a = 0 then nan else if 0 < a then posInf else negInf)
      else fin (a / b)
  | fin _, posInf => fin 0
  | fin _, negInf => fin 0
  | posInf, fin b => if 0 ≤ b then posInf else negInf
  | negInf, fin b => if 0 ≤ b then negInf else posInf
  | posInf, posInf => nan
  | posInf, negInf => nan
  | negInf, posInf => nan
  | negInf, negInf => nan

/-- Result record with the two ratio fields kept as floating-point values,
so that NaN and infinities are observable. -/
structure ClausingResultsF where
  clausing_factor : FVal
  max_count : ℕ
  nlost : ℕ
  den_cor : FVal

/-- The routine with the final aggregation (`src/main.rs` lines 30 and
192-196) evaluated in IEEE-754 style: `r_bottom = r_screen / r_accel`,
`clausing_factor = (r_bottom * r_bottom * iescape) / npart`,
`den_cor = (vz0tot / npart) / (vztot / iescape)`.  The accumulators that
feed these divisions are exact (`0.0` when nothing was accumulated), so the
zero-division and NaN behaviour modelled here is exactly the Rust one. -/
noncomputable def clausingF (p : ClausingParams) (f : ℕ → ℝ) : ClausingResultsF :=
  let a := clausingAccum p f
  let rB := FVal.div (FVal.fin p.r_screen) (FVal.fin p.r_accel)
  { clausing_factor :=
      FVal.div (FVal.mul (FVal.mul rB rB) (FVal.fin (a.iescape : ℝ)))
        (FVal.fin (p.npart : ℝ))
  , max_count := a.max_count
  , nlost := a.nlost
  , den_cor :=
      FVal.div (FVal.div (FVal.fin a.vz0tot) (FVal.fin (p.npart : ℝ)))
        (FVal.div (FVal.fin a.vztot) (FVal.fin (a.iescape : ℝ))) }

/-- The intermediate `vzav = vztot / iescape` (`src/main.rs` line 195) as a
floating-point value. -/
noncomputable def vzAvgF (p : ClausingParams) (f : ℕ → ℝ) : FVal :=
  FVal.div (FVal.fin (clausingAccum p f).vztot) (FVal.fin ((clausingAccum p f).iescape : ℝ))

/-! ## Structural lemmas about one loop body execution -/

theorem branch1_icount (g : Geo) (f : ℕ → ℝ) (d : PDyn) :
    (branch1 g f d).icount = d.icount := by
  unfold branch1; split <;> rfl

theorem branch1_notgone (g : Geo) (f : ℕ → ℝ) (d : PDyn) :
    (branch1 g f d).notgone = d.notgone := by
  unfold branch1; split <;> rfl

theorem branch2_icount (g : Geo) (f : ℕ → ℝ) (d : PDyn) :
    (branch2 g f d).icount = d.icount := by
  simp only [branch2]
  split
  · split <;> rfl
  · rfl

theorem branch2_notgone (g : Geo) (f : ℕ → ℝ) (d : PDyn) :
    (branch2 g f d).notgone = d.notgone := by
  simp only [branch2]
  split
  · split <;> rfl
  · rfl

theorem branch3_icount (g : Geo) (f : ℕ → ℝ) (d : PDyn) :
    (branch3 g f d).icount = d.icount := by
  simp only [branch3]
  split
  · split <;> rfl
  · rfl

theorem branch3_notgone (g : Geo) (f : ℕ → ℝ) (d : PDyn) :
    (branch3 g f d).notgone = d.notgone := by
  simp only [branch3]
  split
  · split <;> rfl
  · rfl

theorem postBranch_icount (g : Geo) (f : ℕ → ℝ) (d : PDyn) :
    (postBranch g f d).icount = d.icount + 1 := by
  simp [postBranch, branch3_icount, branch2_icount, branch1_icount]

theorem postBranch_notgone (g : Geo) (f : ℕ → ℝ) (d : PDyn) :
    (postBranch g f d).notgone = d.notgone := by
  simp [postBranch, branch3_notgone, branch2_notgone, branch1_notgone]

/-- The exit checks only clear the `notgone` flag: the result is `d` with
`notgone` cleared when any of the three exit conditions holds. -/
theorem exitDyn_eq (g : Geo) (d : PDyn) :
    exitDyn g d =
      { d with notgone :=
          if d.z < 0 then false
          else if g.length < d.z then false
          else if 1000 < d.icount then false
          else d.notgone } := by
  unfold exitDyn
  by_cases h1 : d.z < 0 <;> by_cases h2 : g.length < d.z <;>
    by_cases h3 : 1000 < d.icount <;> simp [h1, h2, h3]

theorem exitDyn_z (g : Geo) (d : PDyn) : (exitDyn g d).z = d.z := by
  rw [exitDyn_eq]

theorem exitDyn_vz (g : Geo) (d : PDyn) : (exitDyn g d).vz = d.vz := by
  rw [exitDyn_eq]

theorem exitDyn_icount (g : Geo) (d : PDyn) : (exitDyn g d).icount = d.icount := by
  rw [exitDyn_eq]

theorem exitDyn_k (g : Geo) (d : PDyn) : (exitDyn g d).k = d.k := by
  rw [exitDyn_eq]

theorem exitDyn_notgone_of_cutoff (g : Geo) (d : PDyn) (h : 1000 < d.icount) :
    (exitDyn g d).notgone = false := by
  rw [exitDyn_eq]
  by_cases h1 : d.z < 0 <;> by_cases h2 : g.length < d.z <;> simp [h1, h2, h]

theorem exitDyn_notgone_of_escape (g : Geo) (d : PDyn) (h : g.length < d.z) :
    (exitDyn g d).notgone = false := by
  rw [exitDyn_eq]
  by_cases h1 : d.z < 0 <;> simp [h1, h]

/-- The exit checks on the accumulators, in closed form: `iescape`/`vztot`
pick up the escape contribution, `nlost` the cutoff contribution, and
`max_count` is raised to `icount` when exceeded; `vz0tot` is untouched. -/
theorem exitAcc_eq (g : Geo) (d : PDyn) (a : Acc) :
    exitAcc g d a =
      ⟨a.iescape + (if g.length < d.z then 1 else 0),
       a.vztot + (if g.length < d.z then d.vz else 0),
       a.vz0tot,
       a.nlost + (if 1000 < d.icount then 1 else 0),
       if a.max_count < d.icount then d.icount else a.max_count⟩ := by
  unfold exitAcc
  by_cases h1 : g.length < d.z <;> by_cases h2 : 1000 < d.icount <;>
    by_cases h3 : a.max_count < d.icount <;> simp [h1, h2, h3]

theorem ite_lt_max (m n : ℕ) : (if m < n then n else m) = max m n := by
  rcases Nat.lt_or_ge m n with h | h
  · simp [h, Nat.max_eq_right (Nat.le_of_lt h)]
  · simp [Nat.not_lt.2 h, Nat.max_eq_left h]

theorem stepDyn_icount (g : Geo) (f : ℕ → ℝ) (d : PDyn) :
    (stepDyn g f d).icount = d.icount + 1 := by
  rw [stepDyn, exitDyn_icount, postBranch_icount]

theorem stepDyn_z (g : Geo) (f : ℕ → ℝ) (d : PDyn) :
    (stepDyn g f d).z = (postBranch g f d).z := by
  rw [stepDyn, exitDyn_z]

theorem stepDyn_vz (g : Geo) (f : ℕ → ℝ) (d : PDyn) :
    (stepDyn g f d).vz = (postBranch g f d).vz := by
  rw [stepDyn, exitDyn_vz]

/-- Whatever the geometry and the draws, a state produced by the loop body
satisfies the cutoff invariant: if the particle is still in flight, its
iteration count is at most 1000. -/
theorem stepDyn_notgone_inv (g : Geo) (f : ℕ → ℝ) (d : PDyn) :
    (stepDyn g f d).notgone = true → (stepDyn g f d).icount ≤ 1000 := by
  intro h
  rw [stepDyn, exitDyn_eq] at h
  rw [stepDyn_icount]
  simp only at h
  by_cases h3 : 1000 < (postBranch g f d).icount
  · by_cases h1 : (postBranch g f d).z < 0 <;>
      by_cases h2 : g.length < (postBranch g f d).z <;> simp [h1, h2, h3] at h
  · rw [postBranch_icount] at h3; omega

theorem stepDyn_notgone_of_escape (g : Geo) (f : ℕ → ℝ) (d : PDyn)
    (h : g.length < (postBranch g f d).z) : (stepDyn g f d).notgone = false := by
  rw [stepDyn]; exact exitDyn_notgone_of_escape _ _ h

theorem stepAcc_eq (g : Geo) (f : ℕ → ℝ) (d : PDyn) (a : Acc) :
    stepAcc g f d a =
      ⟨a.iescape + (if g.length < (postBranch g f d).z then 1 else 0),
       a.vztot + (if g.length < (postBranch g f d).z then (postBranch g f d).vz else 0),
       a.vz0tot,
       a.nlost + (if 1000 < (postBranch g f d).icount then 1 else 0),
       max a.max_count (postBranch g f d).icount⟩ := by
  rw [stepAcc, exitAcc_eq, ite_lt_max]

/-! ## Termination of the trajectory loop

The cutoff check `icount > 1000` clears `notgone` during the 1001st body
execution, so the loop halts within 1001 body executions from a fresh
particle, for every geometry and every random stream.  Consequently fuel
`1002` realizes the exact `while` semantics. -/

theorem runLoop_halted (g : Geo) (f : ℕ → ℝ) (fuel : ℕ) (d : PDyn) (a : Acc)
    (h : d.notgone = false) : runLoop g f fuel d a = (d, a) := by
  cases fuel with
  | zero => rfl
  | succ n => simp [runLoop, h]

theorem runLoop_halts (g : Geo) (f : ℕ → ℝ) :
    ∀ (fuel : ℕ) (d : PDyn) (a : Acc), (d.notgone = true → d.icount ≤ 1000) →
      1002 ≤ fuel + d.icount → (runLoop g f fuel d a).1.notgone = false := by
  intro fuel
  induction fuel with
  | zero =>
      intro d a hinv hf
      cases hng : d.notgone with
      | false => simpa [runLoop] using hng
      | true => exact absurd (hinv hng) (by omega)
  | succ n ih =>
      intro d a hinv hf
      by_cases hng : d.notgone = true
      · rw [runLoop, if_pos hng]
        exact ih _ _ (stepDyn_notgone_inv g f d) (by rw [stepDyn_icount]; omega)
      · rw [runLoop, if_neg hng]
        simpa using Bool.not_eq_true _ ▸ hng

theorem runLoop_icount_le (g : Geo) (f : ℕ → ℝ) :
    ∀ (fuel : ℕ) (d : PDyn) (a : Acc), (d.notgone = true → d.icount ≤ 1000) →
      d.icount ≤ 1001 → (runLoop g f fuel d a).1.icount ≤ 1001 := by
  intro fuel
  induction fuel with
  | zero => intro d a _ hle; simpa [runLoop] using hle
  | succ n ih =>
      intro d a hinv hle
      by_cases hng : d.notgone = true
      · rw [runLoop, if_pos hng]
        exact ih _ _ (stepDyn_notgone_inv g f d)
          (by rw [stepDyn_icount]; exact Nat.succ_le_succ (hinv hng))
      · rw [runLoop, if_neg hng]; simpa using hle

theorem runLoop_succ_eq (g : Geo) (f : ℕ → ℝ) :
    ∀ (fuel : ℕ) (d : PDyn) (a : Acc), (d.notgone = true → d.icount ≤ 1000) →
      1002 ≤ fuel + d.icount → runLoop g f (fuel + 1) d a = runLoop g f fuel d a := by
  intro fuel
  induction fuel with
  | zero =>
      intro d a hinv hf
      have hng : d.notgone = false := by
        cases hng : d.notgone with
        | false => rfl
        | true => exact absurd (hinv hng) (by omega)
      rw [runLoop_halted g f 1 d a hng, runLoop_halted g f 0 d a hng]
  | succ n ih =>
      intro d a hinv hf
      by_cases hng : d.notgone = true
      · rw [runLoop, if_pos hng]
        conv_rhs => rw [runLoop, if_pos hng]
        exact ih _ _ (stepDyn_notgone_inv g f d) (by rw [stepDyn_icount]; omega)
      · have hng' : d.notgone = false := by simpa using hng
        rw [runLoop_halted g f (n + 2) d a hng', runLoop_halted g f (n + 1) d a hng']

theorem runLoop_add_fuel (g : Geo) (f : ℕ → ℝ) (extra : ℕ) :
    ∀ (fuel : ℕ) (d : PDyn) (a : Acc), (d.notgone = true → d.icount ≤ 1000) →
      1002 ≤ fuel + d.icount →
      runLoop g f (fuel + extra) d a = runLoop g f fuel d a := by
  induction extra with
  | zero => intro fuel d a _ _; rfl
  | succ m ih =>
      intro fuel d a hinv hf
      have h1 : fuel + (m + 1) = (fuel + m) + 1 := by omega
      rw [h1, runLoop_succ_eq g f (fuel + m) d a hinv (by omega), ih fuel d a hinv hf]

/-- Fuel irrelevance: for a fresh particle state (`icount = 0`), any fuel of
at least `1002` computes the same final state as fuel `1002`, because the
loop has already halted.  This is the sense in which `runLoop` with fuel
`1002` is the exact semantics of the source's unbounded `while` loop. -/
theorem runLoop_fuel_stable (g : Geo) (f : ℕ → ℝ) (fuel : ℕ) (d : PDyn) (a : Acc)
    (hinv : d.notgone = true → d.icount ≤ 1000) (hfuel : 1002 ≤ fuel) :
    runLoop g f fuel d a = runLoop g f 1002 d a := by
  have h1 : fuel = 1002 + (fuel - 1002) := by omega
  rw [h1, runLoop_add_fuel g f (fuel - 1002) 1002 d a hinv (by omega)]

/-! ## Accumulator frame lemmas

The trajectory component of the loop never reads the accumulators, and the
accumulator updates are additive (with `max` for `max_count`), so a run
decomposes into per-particle contributions. -/

/-- Pointwise sum of accumulator states (`max` for `max_count`). -/
def addAcc (a b : Acc) : Acc :=
  ⟨a.iescape + b.iescape, a.vztot + b.vztot, a.vz0tot + b.vz0tot,
   a.nlost + b.nlost, max a.max_count b.max_count⟩

theorem addAcc_zero_left (b : Acc) : addAcc Acc.zero b = b := by
  simp [addAcc, Acc.zero]

theorem addAcc_zero_right (a : Acc) : addAcc a Acc.zero = a := by
  simp [addAcc, Acc.zero]

theorem addAcc_assoc (a b c : Acc) :
    addAcc (addAcc a b) c = addAcc a (addAcc b c) := by
  simp [addAcc, Nat.add_assoc, add_assoc, Nat.max_assoc]

theorem stepAcc_add (g : Geo) (f : ℕ → ℝ) (d : PDyn) (a b : Acc) :
    stepAcc g f d (addAcc a b) = addAcc a (stepAcc g f d b) := by
  rw [stepAcc_eq, stepAcc_eq]
  simp [addAcc, Nat.add_assoc, add_assoc, Nat.max_assoc]

theorem stepAcc_iescape (g : Geo) (f : ℕ → ℝ) (d : PDyn) (a : Acc) :
    (stepAcc g f d a).iescape =
      a.iescape + (if g.length < (postBranch g f d).z then 1 else 0) := by
  rw [stepAcc_eq]

theorem stepAcc_vztot (g : Geo) (f : ℕ → ℝ) (d : PDyn) (a : Acc) :
    (stepAcc g f d a).vztot =
      a.vztot + (if g.length < (postBranch g f d).z then (postBranch g f d).vz else 0) := by
  rw [stepAcc_eq]

theorem stepAcc_vz0tot (g : Geo) (f : ℕ → ℝ) (d : PDyn) (a : Acc) :
    (stepAcc g f d a).vz0tot = a.vz0tot := by
  rw [stepAcc_eq]

theorem stepAcc_nlost (g : Geo) (f : ℕ → ℝ) (d : PDyn) (a : Acc) :
    (stepAcc g f d a).nlost =
      a.nlost + (if 1000 < (postBranch g f d).icount then 1 else 0) := by
  rw [stepAcc_eq]

theorem runLoop_acc (g : Geo) (f : ℕ → ℝ) :
    ∀ (fuel : ℕ) (d : PDyn) (a b : Acc),
      runLoop g f fuel d (addAcc a b) =
        ((runLoop g f fuel d b).1, addAcc a (runLoop g f fuel d b).2) := by
  intro fuel
  induction fuel with
  | zero => intro d a b; rfl
  | succ n ih =>
      intro d a b
      by_cases hng : d.notgone = true
      · rw [runLoop, if_pos hng, stepAcc_add, ih]
        conv_rhs => rw [runLoop, if_pos hng]
      · rw [runLoop, if_neg hng]
        conv_rhs => rw [runLoop, if_neg hng]

theorem runLoop_vz0tot (g : Geo) (f : ℕ → ℝ) :
    ∀ (fuel : ℕ) (d : PDyn) (a : Acc), (runLoop g f fuel d a).2.vz0tot = a.vz0tot := by
  intro fuel
  induction fuel with
  | zero => intro d a; rfl
  | succ n ih =>
      intro d a
      by_cases hng : d.notgone = true
      · rw [runLoop, if_pos hng, ih, stepAcc_eq]
      · rw [runLoop, if_neg hng]

theorem runLoop_iescape_mono (g : Geo) (f : ℕ → ℝ) :
    ∀ (fuel : ℕ) (d : PDyn) (a : Acc), a.iescape ≤ (runLoop g f fuel d a).2.iescape := by
  intro fuel
  induction fuel with
  | zero => intro d a; exact le_refl _
  | succ n ih =>
      intro d a
      by_cases hng : d.notgone = true
      · rw [runLoop, if_pos hng]
        refine le_trans ?_ (ih (stepDyn g f d) (stepAcc g f d a))
        rw [stepAcc_eq]
        exact Nat.le_add_right _ _
      · rw [runLoop, if_neg hng]

/-- A single particle escapes at most once: from a state that is still in
flight, the loop adds at most `1` to `iescape`, because the body execution
that increments it also clears `notgone`. -/
theorem runLoop_iescape_le (g : Geo) (f : ℕ → ℝ) :
    ∀ (fuel : ℕ) (d : PDyn) (a : Acc),
      (runLoop g f fuel d a).2.iescape ≤ a.iescape + (if d.notgone then 1 else 0) := by
  intro fuel
  induction fuel with
  | zero => intro d a; exact Nat.le_add_right _ _
  | succ n ih =>
      intro d a
      by_cases hng : d.notgone = true
      · rw [runLoop, if_pos hng, hng]
        by_cases hesc : g.length < (postBranch g f d).z
        · have hstop : (stepDyn g f d).notgone = false := stepDyn_notgone_of_escape g f d hesc
          refine le_trans (ih _ _) ?_
          rw [stepAcc_iescape, hstop]
          simp [hesc]
        · refine le_trans (ih _ _) ?_
          rw [stepAcc_iescape, if_neg hesc, Nat.add_zero]
          split <;> simp
      · have hng' : d.notgone = false := by simpa using hng
        rw [runLoop, if_neg hng, hng']
        simp

/-- If a run of the loop does not raise the escape count, it does not touch
the exit-velocity sum either: the two are incremented by the same check. -/
theorem runLoop_vztot_of_iescape (g : Geo) (f : ℕ → ℝ) :
    ∀ (fuel : ℕ) (d : PDyn) (a : Acc),
      (runLoop g f fuel d a).2.iescape = a.iescape →
      (runLoop g f fuel d a).2.vztot = a.vztot := by
  intro fuel
  induction fuel with
  | zero => intro d a _; rfl
  | succ n ih =>
      intro d a h
      by_cases hng : d.notgone = true
      · rw [runLoop, if_pos hng] at h ⊢
        have hmono := runLoop_iescape_mono g f n (stepDyn g f d) (stepAcc g f d a)
        rw [h, stepAcc_iescape] at hmono
        by_cases hesc : g.length < (postBranch g f d).z
        · rw [if_pos hesc] at hmono; omega
        · have h2 : (runLoop g f n (stepDyn g f d) (stepAcc g f d a)).2.iescape =
              (stepAcc g f d a).iescape := by
            rw [h, stepAcc_iescape, if_neg hesc, Nat.add_zero]
          rw [ih _ _ h2, stepAcc_vztot, if_neg hesc, add_zero]
      · rw [runLoop, if_neg hng]

/-! ## Per-particle decomposition of a run

Because the trajectory never reads the accumulators and the accumulator
updates are additive, the accumulators after `npart` particles are the
`addAcc`-sum of independent per-particle contributions, each computed from
a zeroed accumulator at the particle's starting draw index. -/

theorem launchDyn_notgone (g : Geo) (f : ℕ → ℝ) (k : ℕ) :
    (launchDyn g f k).notgone = true := rfl

theorem launchDyn_icount (g : Geo) (f : ℕ → ℝ) (k : ℕ) :
    (launchDyn g f k).icount = 0 := rfl

theorem launchDyn_vz (g : Geo) (f : ℕ → ℝ) (k : ℕ) :
    (launchDyn g f k).vz = sampleCosTheta (f (k + 1)) := rfl

/-- The draw index where the next particle starts, after the particle
launched at index `k` has been traced to completion. -/
noncomputable def nextK (g : Geo) (f : ℕ → ℝ) (k : ℕ) : ℕ :=
  (runLoop g f 1002 (launchDyn g f k) Acc.zero).1.k

/-- The accumulator contributions of the single particle launched at draw
index `k`, computed from a zeroed accumulator (its `vz0tot` stays `0`: the
launch velocity is accounted separately by `addInitVz`). -/
noncomputable def particleAcc (g : Geo) (f : ℕ → ℝ) (k : ℕ) : Acc :=
  (runLoop g f 1002 (launchDyn g f k) Acc.zero).2

/-- The full contribution of one particle: its trajectory contributions
plus its initial velocity recorded at launch. -/
noncomputable def pTot (g : Geo) (f : ℕ → ℝ) (k : ℕ) : Acc :=
  addAcc ⟨0, 0, launchVz g f k, 0, 0⟩ (particleAcc g f k)

/-- The draw index at which particle `i` starts when the first particle of
the chain starts at index `k`. -/
noncomputable def kSeqFrom (g : Geo) (f : ℕ → ℝ) : ℕ → ℕ → ℕ
  | k, 0 => k
  | k, i + 1 => kSeqFrom g f (nextK g f k) i

/-- The `addAcc`-sum of the contributions of `n` consecutive particles
starting at draw index `k`. -/
noncomputable def foldParticles (g : Geo) (f : ℕ → ℝ) : ℕ → ℕ → Acc
  | 0, _ => Acc.zero
  | n + 1, k => addAcc (pTot g f k) (foldParticles g f n (nextK g f k))

theorem simStepF_eq (g : Geo) (f : ℕ → ℝ) (k : ℕ) (a : Acc) :
    simStepF g f 1002 (k, a) = (nextK g f k, addAcc a (pTot g f k)) := by
  have h1 : addInitVz a (launchVz g f k) =
      addAcc a ⟨0, 0, launchVz g f k, 0, 0⟩ := by
    simp [addInitVz, addAcc]
  have h2 : (⟨0, 0, launchVz g f k, 0, 0⟩ : Acc) =
      addAcc ⟨0, 0, launchVz g f k, 0, 0⟩ Acc.zero := (addAcc_zero_right _).symm
  simp only [simStepF, h1, runLoop_acc]
  rw [h2, runLoop_acc]
  simp [nextK, particleAcc, pTot]

theorem simulateF_eq (g : Geo) (f : ℕ → ℝ) :
    ∀ (n k : ℕ) (a : Acc),
      (simulateF g f 1002 n (k, a)).2 = addAcc a (foldParticles g f n k) := by
  intro n
  induction n with
  | zero => intro k a; simp [simulateF, foldParticles, addAcc_zero_right]
  | succ m ih =>
      intro k a
      rw [simulateF, simStepF_eq, ih, addAcc_assoc]
      rfl

theorem clausingAccum_fold (p : ClausingParams) (f : ℕ → ℝ) :
    clausingAccum p f = foldParticles (normGeo p) f p.npart 0 := by
  rw [clausingAccum, clausingAccumF, simulateF_eq, addAcc_zero_left]

theorem particleAcc_vz0tot (g : Geo) (f : ℕ → ℝ) (k : ℕ) :
    (particleAcc g f k).vz0tot = 0 := by
  rw [particleAcc, runLoop_vz0tot]; rfl

theorem particleAcc_iescape_le_one (g : Geo) (f : ℕ → ℝ) (k : ℕ) :
    (particleAcc g f k).iescape ≤ 1 := by
  have h := runLoop_iescape_le g f 1002 (launchDyn g f k) Acc.zero
  rw [launchDyn_notgone] at h
  simpa [particleAcc, Acc.zero] using h

theorem particleAcc_vztot_zero (g : Geo) (f : ℕ → ℝ) (k : ℕ)
    (h : (particleAcc g f k).iescape = 0) : (particleAcc g f k).vztot = 0 := by
  have := runLoop_vztot_of_iescape g f 1002 (launchDyn g f k) Acc.zero (by simpa [particleAcc, Acc.zero] using h)
  simpa [particleAcc, Acc.zero] using this

theorem foldParticles_iescape (g : Geo) (f : ℕ → ℝ) :
    ∀ (n k : ℕ), (foldParticles g f n k).iescape =
      ∑ i ∈ Finset.range n, (particleAcc g f (kSeqFrom g f k i)).iescape := by
  intro n
  induction n with
  | zero => intro k; simp [foldParticles, Acc.zero]
  | succ m ih =>
      intro k
      rw [foldParticles, Finset.sum_range_succ']
      have hfst : kSeqFrom g f k 0 = k := rfl
      have hstep : ∀ i, kSeqFrom g f k (i + 1) = kSeqFrom g f (nextK g f k) i :=
        fun i => rfl
      simp only [hfst, hstep, ← ih]
      simp [addAcc, pTot, Nat.add_comm]

theorem foldParticles_vztot (g : Geo) (f : ℕ → ℝ) :
    ∀ (n k : ℕ), (foldParticles g f n k).vztot =
      ∑ i ∈ Finset.range n, (particleAcc g f (kSeqFrom g f k i)).vztot := by
  intro n
  induction n with
  | zero => intro k; simp [foldParticles, Acc.zero]
  | succ m ih =>
      intro k
      rw [foldParticles, Finset.sum_range_succ']
      have hfst : kSeqFrom g f k 0 = k := rfl
      have hstep : ∀ i, kSeqFrom g f k (i + 1) = kSeqFrom g f (nextK g f k) i :=
        fun i => rfl
      simp only [hfst, hstep, ← ih]
      show (pTot g f k).vztot + _ = _
      simp [pTot, addAcc, add_comm]

theorem foldParticles_vz0tot (g : Geo) (f : ℕ → ℝ) :
    ∀ (n k : ℕ), (foldParticles g f n k).vz0tot =
      ∑ i ∈ Finset.range n, launchVz g f (kSeqFrom g f k i) := by
  intro n
  induction n with
  | zero => intro k; simp [foldParticles, Acc.zero]
  | succ m ih =>
      intro k
      rw [foldParticles, Finset.sum_range_succ']
      have hfst : kSeqFrom g f k 0 = k := rfl
      have hstep : ∀ i, kSeqFrom g f k (i + 1) = kSeqFrom g f (nextK g f k) i :=
        fun i => rfl
      simp only [hfst, hstep, ← ih]
      show (pTot g f k).vz0tot + _ = _
      simp [pTot, addAcc, particleAcc_vz0tot, add_comm]

/-- Number of escaped particles in the run of `clausing p f`: the sum over
particles of the per-particle escape indicator (each `0` or `1`). -/
noncomputable def escCount (p : ClausingParams) (f : ℕ → ℝ) : ℕ :=
  ∑ i ∈ Finset.range p.npart,
    (particleAcc (normGeo p) f (kSeqFrom (normGeo p) f 0 i)).iescape

/-- Sum of exit axial velocities over the escaped particles of the run of
`clausing p f` (a particle that does not escape contributes `0`). -/
noncomputable def exitVzSum (p : ClausingParams) (f : ℕ → ℝ) : ℝ :=
  ∑ i ∈ Finset.range p.npart,
    (particleAcc (normGeo p) f (kSeqFrom (normGeo p) f 0 i)).vztot

/-- Sum of the initial axial velocities of all `npart` launched particles
of the run of `clausing p f`. -/
noncomputable def initVzSum (p : ClausingParams) (f : ℕ → ℝ) : ℝ :=
  ∑ i ∈ Finset.range p.npart, launchVz (normGeo p) f (kSeqFrom (normGeo p) f 0 i)

theorem clausingAccum_iescape (p : ClausingParams) (f : ℕ → ℝ) :
    (clausingAccum p f).iescape = escCount p f := by
  rw [clausingAccum_fold, foldParticles_iescape, escCount]

theorem clausingAccum_vztot (p : ClausingParams) (f : ℕ → ℝ) :
    (clausingAccum p f).vztot = exitVzSum p f := by
  rw [clausingAccum_fold, foldParticles_vztot, exitVzSum]

theorem clausingAccum_vz0tot (p : ClausingParams) (f : ℕ → ℝ) :
    (clausingAccum p f).vz0tot = initVzSum p f := by
  rw [clausingAccum_fold, foldParticles_vz0tot, initVzSum]

theorem escCount_le_npart (p : ClausingParams) (f : ℕ → ℝ) :
    escCount p f ≤ p.npart := by
  calc escCount p f ≤ ∑ _i ∈ Finset.range p.npart, 1 :=
        Finset.sum_le_sum fun i _ => particleAcc_iescape_le_one _ _ _
    _ = p.npart := by simp

/-! ## Helper lemmas for the claim theorems -/

theorem clausing_clausing_factor (p : ClausingParams) (f : ℕ → ℝ) :
    (clausing p f).clausing_factor =
      (normGeo p).r_bottom ^ 2 * ((clausingAccum p f).iescape : ℝ) / (p.npart : ℝ) := rfl

theorem clausing_den_cor (p : ClausingParams) (f : ℕ → ℝ) :
    (clausing p f).den_cor =
      ((clausingAccum p f).vz0tot / (p.npart : ℝ)) /
        ((clausingAccum p f).vztot / ((clausingAccum p f).iescape : ℝ)) := rfl

theorem clausing_max_count (p : ClausingParams) (f : ℕ → ℝ) :
    (clausing p f).max_count = (clausingAccum p f).max_count := rfl

theorem clausing_nlost (p : ClausingParams) (f : ℕ → ℝ) :
    (clausing p f).nlost = (clausingAccum p f).nlost := rfl

theorem sampleCosTheta_pos (u : ℝ) (h : u < 1) : 0 < sampleCosTheta u := by
  unfold sampleCosTheta
  split
  · norm_num
  · exact Real.sqrt_pos.2 (by linarith)

theorem sampleCosTheta_le (u : ℝ) : sampleCosTheta u ≤ 0.99999 := by
  unfold sampleCosTheta
  split
  · exact le_refl _
  · next h => exact not_lt.1 h

/-- The lower-wall branch when it fires, in closed form (from the source:
`r0 = r_bottom; z0 = z;` then the cosine-law draw assigned as
`vz = cos(phi)*sintheta, vy = sin(phi)*sintheta, vx = costheta`, then the
time-to-radius advance). -/
theorem branch1_apply (g : Geo) (f : ℕ → ℝ) (d : PDyn) (h : d.z < g.len_bottom) :
    branch1 g f d =
      { d with
        r0 := g.r_bottom
        z0 := d.z
        vx := sampleCosTheta (f d.k)
        vy := Real.sin (2 * Real.pi * f (d.k + 1)) *
                Real.sqrt (1 - sampleCosTheta (f d.k) ^ 2)
        vz := Real.cos (2 * Real.pi * f (d.k + 1)) *
                Real.sqrt (1 - sampleCosTheta (f d.k) ^ 2)
        z := d.z +
          timeToRadius (sampleCosTheta (f d.k))
            (Real.sin (2 * Real.pi * f (d.k + 1)) *
              Real.sqrt (1 - sampleCosTheta (f d.k) ^ 2))
            g.r_bottom g.r_bottom *
          (Real.cos (2 * Real.pi * f (d.k + 1)) *
            Real.sqrt (1 - sampleCosTheta (f d.k) ^ 2))
        k := d.k + 2 } := by
  unfold branch1
  rw [if_pos h]

theorem branch1_skip (g : Geo) (f : ℕ → ℝ) (d : PDyn) (h : ¬d.z < g.len_bottom) :
    branch1 g f d = d := by
  unfold branch1
  rw [if_neg h]

theorem branch2_skip (g : Geo) (f : ℕ → ℝ) (d : PDyn)
    (h : ¬(g.len_bottom ≤ d.z ∧ d.z0 < g.len_bottom)) : branch2 g f d = d := by
  unfold branch2
  rw [if_neg h]

theorem branch3_skip (g : Geo) (f : ℕ → ℝ) (d : PDyn)
    (h : ¬(g.len_bottom ≤ d.z ∧ d.z ≤ g.length)) : branch3 g f d = d := by
  unfold branch3
  rw [if_neg h]

theorem simStepF_stable (g : Geo) (f : ℕ → ℝ) (fuel : ℕ) (h : 1002 ≤ fuel)
    (s : ℕ × Acc) : simStepF g f fuel s = simStepF g f 1002 s := by
  simp only [simStepF]
  rw [runLoop_fuel_stable g f fuel (launchDyn g f s.1) _
    (fun _ => by rw [launchDyn_icount]; omega) h]

theorem simulateF_stable (g : Geo) (f : ℕ → ℝ) (fuel : ℕ) (h : 1002 ≤ fuel) :
    ∀ (n : ℕ) (s : ℕ × Acc), simulateF g f fuel n s = simulateF g f 1002 n s := by
  intro n
  induction n with
  | zero => intro s; rfl
  | succ m ih => intro s; rw [simulateF, simulateF, simStepF_stable g f fuel h, ih]

/-! ## Concrete inputs used by witnesses -/

/-- Witness parameters: the spec's example geometry with a single particle. -/
noncomputable def pEx : ClausingParams :=
  ⟨1, 1 / 2, 2, 1, 3 / 10, 1⟩

/-- Witness parameters with `npart = 0` (an invalid input per the spec). -/
noncomputable def pZero : ClausingParams :=
  ⟨1, 1 / 2, 2, 1, 3 / 10, 0⟩

/-- Witness random stream: all draws are `0`. -/
def fEx : ℕ → ℝ := fun _ => 0

/-- Witness trajectory state: at the axis of the base plane, in flight. -/
def dEx : PDyn := ⟨0, 0, 0, 0, 0, 0, 0, true, 0⟩

/-- Witness trajectory state with the iteration count at the cutoff. -/
def dCut : PDyn := ⟨0, 0, 0, 0, 0, 0, 1000, true, 0⟩

/-! ## Claim theorems -/

/-- Claim C9: the geometry normalizer computes `r_bottom = r_screen /
r_accel`, `len_bottom = (thick_screen + grid_space) / r_accel`,
`len_top = thick_accel / r_accel` and `length = len_bottom + len_top`
(the top radius is the constant `1` used by `branch2`/`branch3`), as a pure
deterministic function of the input parameters. -/
theorem geometry_normalizer_spec (p : ClausingParams) :
    (normGeo p).r_bottom = p.r_screen / p.r_accel ∧
    (normGeo p).len_bottom = (p.thick_screen + p.grid_space) / p.r_accel ∧
    (normGeo p).len_top = p.thick_accel / p.r_accel ∧
    (normGeo p).length = (normGeo p).len_bottom + (normGeo p).len_top :=
  ⟨rfl, rfl, rfl, add_comm _ _⟩

/-- Claim C1: after all `npart` particles are processed, `clausing` returns
`clausing_factor = r_bottom^2 * escaped_count / npart` and
`den_cor = vz0_avg / vz_avg`, where `vz0_avg` is the sum of the initial
`vz` of all `npart` particles divided by `npart` and `vz_avg` is the sum of
the exit `vz` over escaped particles divided by the escape count.  The last
two conjuncts justify the per-particle reading: each particle contributes
`0` or `1` to the escape count, and contributes to the exit-velocity sum
only if it escapes. -/
theorem clausing_aggregation (p : ClausingParams) (f : ℕ → ℝ) :
    (clausing p f).clausing_factor =
      (normGeo p).r_bottom ^ 2 * (escCount p f : ℝ) / (p.npart : ℝ) ∧
    (clausing p f).den_cor =
      (initVzSum p f / (p.npart : ℝ)) / (exitVzSum p f / (escCount p f : ℝ)) ∧
    (∀ i, (particleAcc (normGeo p) f (kSeqFrom (normGeo p) f 0 i)).iescape ≤ 1) ∧
    (∀ i, (particleAcc (normGeo p) f (kSeqFrom (normGeo p) f 0 i)).iescape = 0 →
      (particleAcc (normGeo p) f (kSeqFrom (normGeo p) f 0 i)).vztot = 0) := by
  refine ⟨?_, ?_, fun i => particleAcc_iescape_le_one _ _ _,
    fun i h => particleAcc_vztot_zero _ _ _ h⟩
  · rw [clausing_clausing_factor, clausingAccum_iescape]
  · rw [clausing_den_cor, clausingAccum_iescape, clausingAccum_vztot, clausingAccum_vz0tot]

/-- Claim C2: for every run with `npart ≥ 1`, the returned
`clausing_factor` lies between `0` and `r_bottom^2`, whatever the geometry
and the random draws, because the escape count is between `0` and
`npart`. -/
theorem clausing_factor_bounds (p : ClausingParams) (f : ℕ → ℝ) (h : 1 ≤ p.npart) :
    0 ≤ (clausing p f).clausing_factor ∧
    (clausing p f).clausing_factor ≤ (normGeo p).r_bottom ^ 2 := by
  rw [clausing_clausing_factor]
  have hn : (0 : ℝ) < (p.npart : ℝ) := by exact_mod_cast h
  constructor
  · exact div_nonneg (mul_nonneg (sq_nonneg _) (Nat.cast_nonneg _)) (le_of_lt hn)
  · rw [div_le_iff₀ hn]
    have hesc : ((clausingAccum p f).iescape : ℝ) ≤ (p.npart : ℝ) := by
      have := escCount_le_npart p f
      rw [clausingAccum_iescape]
      exact_mod_cast this
    exact mul_le_mul_of_nonneg_left hesc (sq_nonneg _)

theorem clausing_factor_bounds_witness :
    1 ≤ pEx.npart ∧
      (0 ≤ (clausing pEx fEx).clausing_factor ∧
        (clausing pEx fEx).clausing_factor ≤ (normGeo pEx).r_bottom ^ 2) :=
  ⟨by norm_num [pEx], clausing_factor_bounds pEx fEx (by norm_num [pEx])⟩

/-- Claim C10: the simulation is total.  The embedding is a total function
by construction (mirroring that the Rust code performs no panicking
operation), and the one source of potential divergence, the `while` loop,
halts within the fuel budget for every input — valid or not — and every
random stream: giving the loop any more fuel never changes the result. -/
theorem clausing_total (p : ClausingParams) (f : ℕ → ℝ) (fuel : ℕ)
    (h : 1002 ≤ fuel) : clausingAccumF p f fuel = clausingAccum p f := by
  rw [clausingAccum, clausingAccumF, clausingAccumF,
    simulateF_stable (normGeo p) f fuel h]

theorem clausing_total_witness :
    1002 ≤ 5000 ∧ clausingAccumF pZero fEx 5000 = clausingAccum pZero fEx :=
  ⟨by norm_num, clausing_total pZero fEx 5000 (by norm_num)⟩

/-- Claim C8: the launcher draws `r0 = r_bottom * sqrt(U)`, `z0 = 0`,
`vz = costheta = sqrt(1 - U2)` clamped to at most `0.99999` and strictly
positive for a draw in `[0,1)`, `vx = cos(phi) * sintheta`,
`vy = sin(phi) * sintheta`; and the initial `vz` recorded by `addInitVz`
reaches the final `vz0tot` no matter how the trajectory loop ends. -/
theorem launcher_spec (g : Geo) (f : ℕ → ℝ) (k : ℕ)
    (_h0 : 0 ≤ f (k + 1)) (h1 : f (k + 1) < 1) :
    (launchDyn g f k).r0 = g.r_bottom * Real.sqrt (f k) ∧
    (launchDyn g f k).z0 = 0 ∧
    (launchDyn g f k).vz = sampleCosTheta (f (k + 1)) ∧
    0 < (launchDyn g f k).vz ∧
    (launchDyn g f k).vz ≤ 0.99999 ∧
    (launchDyn g f k).vx =
      Real.cos (2 * Real.pi * f (k + 2)) *
        Real.sqrt (1 - sampleCosTheta (f (k + 1)) ^ 2) ∧
    (launchDyn g f k).vy =
      Real.sin (2 * Real.pi * f (k + 2)) *
        Real.sqrt (1 - sampleCosTheta (f (k + 1)) ^ 2) ∧
    ∀ (a : Acc) (fuel : ℕ),
      (runLoop g f fuel (launchDyn g f k) (addInitVz a (launchVz g f k))).2.vz0tot =
        a.vz0tot + launchVz g f k := by
  refine ⟨rfl, rfl, rfl, ?_, ?_, rfl, rfl, ?_⟩
  · rw [launchDyn_vz]; exact sampleCosTheta_pos _ h1
  · rw [launchDyn_vz]; exact sampleCosTheta_le _
  · intro a fuel; rw [runLoop_vz0tot]; rfl

theorem launcher_spec_witness :
    (0 ≤ fEx 1 ∧ fEx 1 < 1) ∧
      (launchDyn (normGeo pEx) fEx 0).z0 = 0 ∧
      0 < (launchDyn (normGeo pEx) fEx 0).vz :=
  ⟨⟨by norm_num [fEx], by norm_num [fEx]⟩,
    (launcher_spec (normGeo pEx) fEx 0 (by norm_num [fEx]) (by norm_num [fEx])).2.1,
    (launcher_spec (normGeo pEx) fEx 0 (by norm_num [fEx]) (by norm_num [fEx])).2.2.2.1⟩

/-- Claim C7 (amended): in the lower-cylinder-wall branch the particle is
re-emitted from radius `r_bottom` with a cosine-law draw, but with the
roles of `vx` and `vz` exchanged relative to the launcher of section 4.2:
the code assigns `vx = costheta`, `vy = sin(phi)*sintheta`,
`vz = cos(phi)*sintheta` (so `vz` may be negative or positive through
`cos(phi)`), not `vx = cos(phi)*sintheta`, `vz = costheta`. -/
theorem lower_wall_reemission_spec (g : Geo) (f : ℕ → ℝ) (d : PDyn)
    (h : d.z < g.len_bottom) :
    branch1 g f d =
      { d with
        r0 := g.r_bottom
        z0 := d.z
        vx := sampleCosTheta (f d.k)
        vy := Real.sin (2 * Real.pi * f (d.k + 1)) *
                Real.sqrt (1 - sampleCosTheta (f d.k) ^ 2)
        vz := Real.cos (2 * Real.pi * f (d.k + 1)) *
                Real.sqrt (1 - sampleCosTheta (f d.k) ^ 2)
        z := d.z +
          timeToRadius (sampleCosTheta (f d.k))
            (Real.sin (2 * Real.pi * f (d.k + 1)) *
              Real.sqrt (1 - sampleCosTheta (f d.k) ^ 2))
            g.r_bottom g.r_bottom *
          (Real.cos (2 * Real.pi * f (d.k + 1)) *
            Real.sqrt (1 - sampleCosTheta (f d.k) ^ 2))
        k := d.k + 2 } :=
  branch1_apply g f d h

theorem lower_wall_reemission_spec_witness :
    dEx.z < (normGeo pEx).len_bottom ∧
      (branch1 (normGeo pEx) fEx dEx).vx = sampleCosTheta (fEx dEx.k) := by
  have h : dEx.z < (normGeo pEx).len_bottom := by norm_num [dEx, normGeo, pEx]
  exact ⟨h, by rw [lower_wall_reemission_spec (normGeo pEx) fEx dEx h]⟩

/-- Claim C6 (amended): a body execution whose incremented iteration count
exceeds 1000 terminates the particle (`notgone = false`) and increments
`nlost`; because the exit checks are independent `if`s, the same execution
additionally counts the particle as escaped — incrementing `iescape` and
adding its `vz` to `vztot` — exactly when its post-branch `z` exceeds
`length`. -/
theorem cutoff_termination_spec (g : Geo) (f : ℕ → ℝ) (d : PDyn) (a : Acc)
    (h : 1000 ≤ d.icount) :
    (stepDyn g f d).notgone = false ∧
    (stepAcc g f d a).nlost = a.nlost + 1 ∧
    (stepAcc g f d a).iescape =
      a.iescape + (if g.length < (stepDyn g f d).z then 1 else 0) ∧
    (stepAcc g f d a).vztot =
      a.vztot + (if g.length < (stepDyn g f d).z then (stepDyn g f d).vz else 0) := by
  have hc : 1000 < (postBranch g f d).icount := by rw [postBranch_icount]; omega
  refine ⟨?_, ?_, ?_, ?_⟩
  · rw [stepDyn]; exact exitDyn_notgone_of_cutoff _ _ hc
  · rw [stepAcc_nlost, if_pos hc]
  · rw [stepAcc_iescape, stepDyn_z]
  · rw [stepAcc_vztot, stepDyn_z, stepDyn_vz]

theorem FVal.div_nan (x : FVal) : FVal.div x FVal.nan = FVal.nan := by
  cases x <;> rfl

theorem clausingAccum_pZero : clausingAccum pZero fEx = Acc.zero := rfl

/-- Claim C4 (settled as a code bug): `clausing` performs no input
validation.  With the invalid input `npart == 0` it does not reject:
it runs zero particles and returns the result record normally, with
`clausing_factor = 0.0/0.0 = NaN` and `den_cor = NaN/NaN = NaN`
propagated silently. -/
theorem npart_zero_silent_nan :
    clausingF pZero fEx = ⟨FVal.nan, 0, 0, FVal.nan⟩ := by
  simp only [clausingF, clausingAccum_pZero]
  norm_num [Acc.zero, pZero, FVal.div, FVal.mul]

theorem cutoff_termination_spec_witness :
    1000 ≤ dCut.icount ∧
      (stepDyn (normGeo pEx) fEx dCut).notgone = false ∧
      (stepAcc (normGeo pEx) fEx dCut Acc.zero).nlost = Acc.zero.nlost + 1 := by
  have h : 1000 ≤ dCut.icount := by norm_num [dCut]
  exact ⟨h, (cutoff_termination_spec (normGeo pEx) fEx dCut Acc.zero h).1,
    (cutoff_termination_spec (normGeo pEx) fEx dCut Acc.zero h).2.1⟩

/-! ## A concrete run that reaches the iteration cutoff and escapes

Geometry: `r_bottom = 1`, `len_bottom = 1`, `len_top = 1/2` (so
`length = 3/2`), one particle.  The stream below launches the particle to
`z = sqrt 3 / 3`, then feeds the lower-wall branch draws `(3/4, 1/4)` —
whose re-emission has `vz = cos(pi/2) * sintheta = 0`, so the particle
bounces in place — for 1000 iterations, and on the 1001st iteration feeds
`(1/4, 0)`, which sends the particle to `z = sqrt 3 > 3/2`: it escapes on
the same iteration in which the cutoff fires. -/

/-- One-particle parameters normalizing to `r_bottom = 1`, `len_bottom = 1`,
`length = 3/2`. -/
noncomputable def pStar : ClausingParams := ⟨1, 1 / 2, 1, 1, 0, 1⟩

/-- The normalized geometry of `pStar`. -/
noncomputable def gStar : Geo := ⟨1, 1, 1 / 2, 3 / 2⟩

theorem normGeo_pStar : normGeo pStar = gStar := by
  simp only [normGeo, pStar, gStar]
  norm_num

/-- The stream of the cutoff-and-escape run: launch draws `(0, 3/4, 0)`,
then `(3/4, 1/4)` for each of the first 1000 bounces, then `(1/4, 0)`. -/
noncomputable def fStar : ℕ → ℝ := fun n =>
  if n = 0 then 0
  else if n = 1 then 3 / 4
  else if n = 2 then 0
  else if n < 2003 then (if (n - 3) % 2 = 0 then 3 / 4 else 1 / 4)
  else (if (n - 3) % 2 = 0 then 1 / 4 else 0)

theorem fStar_zero : fStar 0 = 0 := by norm_num [fStar]

theorem fStar_one : fStar 1 = 3 / 4 := by norm_num [fStar]

theorem fStar_two : fStar 2 = 0 := by norm_num [fStar]

theorem fStar_even (i : ℕ) (h : i ≤ 999) : fStar (3 + 2 * i) = 3 / 4 := by
  simp only [fStar]
  rw [if_neg (by omega), if_neg (by omega), if_neg (by omega),
    if_pos (by omega), if_pos (by omega)]

theorem fStar_odd (i : ℕ) (h : i ≤ 999) : fStar (3 + 2 * i + 1) = 1 / 4 := by
  simp only [fStar]
  rw [if_neg (by omega), if_neg (by omega), if_neg (by omega),
    if_pos (by omega), if_neg (by omega)]

theorem fStar_2003 : fStar 2003 = 1 / 4 := by norm_num [fStar]

theorem fStar_2004 : fStar 2004 = 0 := by norm_num [fStar]

/-- The stream of the zero-escape run: same launch, then one lower-wall
draw `(3/4, 1/2)` whose re-emission has `vz = cos(pi) * sintheta < 0`, so
the particle leaves through the base (`z < 0`) on its first iteration. -/
noncomputable def f3 : ℕ → ℝ := fun n =>
  if n = 1 then 3 / 4 else if n = 3 then 3 / 4 else if n = 4 then 1 / 2 else 0

theorem f3_zero : f3 0 = 0 := by norm_num [f3]

theorem f3_one : f3 1 = 3 / 4 := by norm_num [f3]

theorem f3_two : f3 2 = 0 := by norm_num [f3]

theorem f3_three : f3 3 = 3 / 4 := by norm_num [f3]

theorem f3_four : f3 4 = 1 / 2 := by norm_num [f3]

/-! ### Square-root and trigonometric facts for the concrete draws -/

theorem sqrt_quarter : Real.sqrt (1 / 4) = 1 / 2 := by
  rw [show (1 / 4 : ℝ) = (1 / 2) ^ 2 by norm_num,
    Real.sqrt_sq (by norm_num : (0 : ℝ) ≤ 1 / 2)]

theorem sqrt3_sq : Real.sqrt 3 ^ 2 = 3 := Real.sq_sqrt (by norm_num)

theorem sqrt3_nonneg : 0 ≤ Real.sqrt 3 := Real.sqrt_nonneg 3

theorem sqrt_three_quarters : Real.sqrt (3 / 4) = Real.sqrt 3 / 2 := by
  rw [show (3 / 4 : ℝ) = (Real.sqrt 3 / 2) ^ 2 by rw [div_pow, sqrt3_sq]; norm_num,
    Real.sqrt_sq (by positivity)]

theorem sqrt3_lt_two : Real.sqrt 3 < 2 := by nlinarith [sqrt3_sq, sqrt3_nonneg]

theorem one_lt_sqrt3 : 1 < Real.sqrt 3 := by nlinarith [sqrt3_sq, sqrt3_nonneg]

theorem sqrt3_gt_three_halves : 3 / 2 < Real.sqrt 3 := by
  nlinarith [sqrt3_sq, sqrt3_nonneg]

theorem sqrt3_half_le_clamp : Real.sqrt 3 / 2 ≤ 0.99999 := by
  nlinarith [sqrt3_sq, sqrt3_nonneg]

theorem sampleCosTheta_34 : sampleCosTheta (3 / 4) = 1 / 2 := by
  unfold sampleCosTheta
  rw [show (1 : ℝ) - 3 / 4 = 1 / 4 by norm_num, sqrt_quarter, if_neg (by norm_num)]

theorem sampleCosTheta_14 : sampleCosTheta (1 / 4) = Real.sqrt 3 / 2 := by
  unfold sampleCosTheta
  rw [show (1 : ℝ) - 1 / 4 = 3 / 4 by norm_num, sqrt_three_quarters,
    if_neg (not_lt.2 sqrt3_half_le_clamp)]

theorem st_of_half : Real.sqrt (1 - (1 / 2 : ℝ) ^ 2) = Real.sqrt 3 / 2 := by
  rw [show (1 : ℝ) - (1 / 2) ^ 2 = 3 / 4 by norm_num, sqrt_three_quarters]

theorem st_of_sqrt3_half : Real.sqrt (1 - (Real.sqrt 3 / 2) ^ 2) = 1 / 2 := by
  rw [show (1 : ℝ) - (Real.sqrt 3 / 2) ^ 2 = 1 / 4 by rw [div_pow, sqrt3_sq]; norm_num,
    sqrt_quarter]

theorem sqrt3_third_lt_one : Real.sqrt 3 / 3 < 1 := by
  nlinarith [sqrt3_sq, sqrt3_nonneg]

theorem sqrt3_third_nonneg : 0 ≤ Real.sqrt 3 / 3 := by positivity

theorem not_sqrt3_third_lt_zero : ¬Real.sqrt 3 / 3 < 0 := not_lt.2 sqrt3_third_nonneg

theorem not_length_lt_sqrt3_third : ¬(3 / 2 : ℝ) < Real.sqrt 3 / 3 :=
  not_lt.2 (by nlinarith [sqrt3_sq, sqrt3_nonneg])

theorem ttr_escape : timeToRadius (Real.sqrt 3 / 2) 0 1 1 = 4 * Real.sqrt 3 / 3 := by
  unfold timeToRadius
  have h1 : ((Real.sqrt 3 / 2) ^ 2 + (0 : ℝ) ^ 2) * 1 ^ 2 - ((0 : ℝ) * 1) ^ 2 = 3 / 4 := by
    rw [div_pow, sqrt3_sq]; norm_num
  rw [h1, sqrt_three_quarters]
  have h2 : (Real.sqrt 3 / 2) ^ 2 + (0 : ℝ) ^ 2 = 3 / 4 := by
    rw [div_pow, sqrt3_sq]; norm_num
  rw [h2]
  ring

theorem ttr_launch : timeToRadius (Real.sqrt 3 / 2) 0 0 1 = 2 * Real.sqrt 3 / 3 := by
  unfold timeToRadius
  have h1 : ((Real.sqrt 3 / 2) ^ 2 + (0 : ℝ) ^ 2) * 1 ^ 2 - ((0 : ℝ) * 0) ^ 2 = 3 / 4 := by
    rw [div_pow, sqrt3_sq]; norm_num
  rw [h1, sqrt_three_quarters]
  have h2 : (Real.sqrt 3 / 2) ^ 2 + (0 : ℝ) ^ 2 = 3 / 4 := by
    rw [div_pow, sqrt3_sq]; norm_num
  rw [h2]
  ring

/-! ### The trajectory states of the cutoff-and-escape run -/

/-- The state after the launch of the `pStar`/`fStar` particle:
`r0 = 0`, direction `(sqrt 3 / 2, 0, 1/2)`, first intersection at
`z = sqrt 3 / 3`. -/
noncomputable def launchState : PDyn :=
  ⟨0, 0, Real.sqrt 3 / 2, 0, 1 / 2, Real.sqrt 3 / 3, 0, true, 3⟩

/-- The state after `i` in-place bounces on the lower wall (`1 ≤ i`):
the re-emitted direction `(1/2, sqrt 3 / 2, 0)` has `vz = 0`, so `z` stays
at `sqrt 3 / 3`. -/
noncomputable def stuckD (i : ℕ) : PDyn :=
  ⟨1, Real.sqrt 3 / 3, 1 / 2, Real.sqrt 3 / 2, 0, Real.sqrt 3 / 3, i, true, 3 + 2 * i⟩

/-- The accumulators after `i` bounces of the single `pStar` particle. -/
noncomputable def stuckA (i : ℕ) : Acc := ⟨0, 0, 1 / 2, 0, i⟩

/-- The final trajectory state of the `pStar`/`fStar` run: the particle
left at `z = sqrt 3 > 3/2` on iteration 1001. -/
noncomputable def dFin : PDyn :=
  ⟨1, Real.sqrt 3 / 3, Real.sqrt 3 / 2, 0, 1 / 2, Real.sqrt 3, 1001, false, 2005⟩

/-- The final accumulators of the `pStar`/`fStar` run: the particle is
counted both as escaped (`iescape = 1`, `vztot = 1/2`) and as stuck
(`nlost = 1`), with `max_count = 1001`. -/
noncomputable def aFin : Acc := ⟨1, 1 / 2, 1 / 2, 1, 1001⟩

theorem launch_eval : launchDyn gStar fStar 0 = launchState := by
  simp only [launchDyn, launchState]
  rw [show (0 + 1 : ℕ) = 1 from rfl, show (0 + 2 : ℕ) = 2 from rfl,
    fStar_zero, fStar_one, fStar_two, sampleCosTheta_34, st_of_half, Real.sqrt_zero,
    show 2 * Real.pi * (0 : ℝ) = 0 by ring, Real.cos_zero, Real.sin_zero,
    show gStar.r_bottom = (1 : ℝ) from rfl, mul_zero, one_mul, zero_mul, ttr_launch]
  simp
  ring

theorem bounce_branch1 (d : PDyn) (i : ℕ) (h : i ≤ 999)
    (hz : d.z = Real.sqrt 3 / 3) (hk : d.k = 3 + 2 * i) :
    branch1 gStar fStar d =
      { d with
        r0 := 1
        z0 := Real.sqrt 3 / 3
        vx := 1 / 2
        vy := Real.sqrt 3 / 2
        vz := 0
        z := Real.sqrt 3 / 3
        k := 3 + 2 * i + 2 } := by
  have hzlt : d.z < gStar.len_bottom := by
    rw [hz]; simpa [gStar] using sqrt3_third_lt_one
  rw [branch1_apply gStar fStar d hzlt, hz, hk, fStar_even i h, fStar_odd i h,
    sampleCosTheta_34, st_of_half,
    show 2 * Real.pi * (1 / 4 : ℝ) = Real.pi / 2 by ring,
    Real.cos_pi_div_two, Real.sin_pi_div_two]
  simp [gStar]

theorem exitDyn_none (g : Geo) (d : PDyn) (h1 : ¬d.z < 0) (h2 : ¬g.length < d.z)
    (h3 : ¬1000 < d.icount) : exitDyn g d = d := by
  rw [exitDyn_eq, if_neg h1, if_neg h2, if_neg h3]

/-- The pass-through case of `branch2`: the radial offset at the crossing
plane is at most `1`, so only `z` advances, to the intersection with the
radius-1 wall. -/
theorem branch2_pass (g : Geo) (f : ℕ → ℝ) (d : PDyn)
    (hc : g.len_bottom ≤ d.z ∧ d.z0 < g.len_bottom)
    (hr : Real.sqrt ((d.r0 - d.vx * ((g.len_bottom - d.z0) / d.vz)) ^ 2 +
            (d.vy * ((g.len_bottom - d.z0) / d.vz)) ^ 2) ≤ 1) :
    branch2 g f d = { d with z := d.z0 + d.vz * timeToRadius d.vx d.vy d.r0 1 } := by
  unfold branch2
  rw [if_pos hc, if_pos hr]

theorem stuck_postBranch (i : ℕ) (h : i ≤ 999) :
    postBranch gStar fStar (stuckD i) = stuckD (i + 1) := by
  rw [postBranch,
    bounce_branch1 _ i h (by simp [stuckD]) (by simp [stuckD])]
  rw [branch2_skip _ _ _ (by
    intro hc
    exact absurd hc.1 (by simpa [gStar] using not_le.2 sqrt3_third_lt_one))]
  rw [branch3_skip _ _ _ (by
    intro hc
    exact absurd hc.1 (by simpa [gStar] using not_le.2 sqrt3_third_lt_one))]
  simp [stuckD]
  omega

theorem stuck_stepDyn (i : ℕ) (h : i ≤ 999) :
    stepDyn gStar fStar (stuckD i) = stuckD (i + 1) := by
  rw [stepDyn, stuck_postBranch i h]
  exact exitDyn_none gStar (stuckD (i + 1))
    (by simpa [stuckD] using not_sqrt3_third_lt_zero)
    (by simpa [stuckD, gStar] using not_length_lt_sqrt3_third)
    (by simp [stuckD]; omega)

theorem stuck_stepAcc (i : ℕ) (h : i ≤ 999) :
    stepAcc gStar fStar (stuckD i) (stuckA i) = stuckA (i + 1) := by
  rw [stepAcc_eq, stuck_postBranch i h,
    if_neg (show ¬gStar.length < (stuckD (i + 1)).z by
      simpa [stuckD, gStar] using not_length_lt_sqrt3_third),
    if_neg (show ¬(1000 : ℕ) < (stuckD (i + 1)).icount by simp [stuckD]; omega)]
  simp [stuckA, stuckD]

theorem launch_postBranch : postBranch gStar fStar launchState = stuckD 1 := by
  rw [postBranch,
    bounce_branch1 _ 0 (by omega) (by simp [launchState]) (by simp [launchState])]
  rw [branch2_skip _ _ _ (by
    intro hc
    exact absurd hc.1 (by simpa [gStar] using not_le.2 sqrt3_third_lt_one))]
  rw [branch3_skip _ _ _ (by
    intro hc
    exact absurd hc.1 (by simpa [gStar] using not_le.2 sqrt3_third_lt_one))]
  simp [stuckD, launchState]

theorem launch_stepDyn : stepDyn gStar fStar launchState = stuckD 1 := by
  rw [stepDyn, launch_postBranch]
  exact exitDyn_none gStar (stuckD 1)
    (by simpa [stuckD] using not_sqrt3_third_lt_zero)
    (by simpa [stuckD, gStar] using not_length_lt_sqrt3_third)
    (by simp [stuckD])

theorem launch_stepAcc : stepAcc gStar fStar launchState (stuckA 0) = stuckA 1 := by
  rw [stepAcc_eq, launch_postBranch,
    if_neg (show ¬gStar.length < (stuckD 1).z by
      simpa [stuckD, gStar] using not_length_lt_sqrt3_third),
    if_neg (show ¬(1000 : ℕ) < (stuckD 1).icount by simp [stuckD])]
  simp [stuckA, stuckD]

/-- The post-branch state of the 1001st iteration: the lower-wall draw
`(1/4, 0)` re-emits with direction `(sqrt 3 / 2, 0, 1/2)`, the particle
crosses the stage boundary at radial offset `2 - sqrt 3 <= 1` and continues
to `z = sqrt 3`, past the exit. -/
noncomputable def dFinPre : PDyn :=
  ⟨1, Real.sqrt 3 / 3, Real.sqrt 3 / 2, 0, 1 / 2, Real.sqrt 3, 1001, true, 2005⟩

theorem escape_postBranch : postBranch gStar fStar (stuckD 1000) = dFinPre := by
  rw [postBranch]
  have hd : ({ stuckD 1000 with icount := (stuckD 1000).icount + 1 } : PDyn).z <
      gStar.len_bottom := by
    simpa [stuckD, gStar] using sqrt3_third_lt_one
  rw [branch1_apply _ _ _ hd]
  simp only [stuckD]
  norm_num
  rw [fStar_2003, fStar_2004, sampleCosTheta_14, st_of_sqrt3_half,
    show 2 * Real.pi * (0 : ℝ) = 0 by ring, Real.cos_zero, Real.sin_zero,
    zero_mul, one_mul, show gStar.r_bottom = (1 : ℝ) from rfl, ttr_escape,
    show Real.sqrt 3 / 3 + 4 * Real.sqrt 3 / 3 * (1 / 2) = Real.sqrt 3 by ring]
  rw [branch2_pass _ _ _
    (by constructor
        · show (1 : ℝ) ≤ Real.sqrt 3
          exact le_of_lt one_lt_sqrt3
        · show Real.sqrt 3 / 3 < (1 : ℝ)
          exact sqrt3_third_lt_one)
    (by
      simp only [gStar]
      rw [Real.sqrt_le_one]
      nlinarith [sqrt3_sq, sqrt3_nonneg, sqrt3_gt_three_halves])]
  rw [show timeToRadius (Real.sqrt 3 / 2) 0 1 1 = 4 * Real.sqrt 3 / 3 from ttr_escape,
    show Real.sqrt 3 / 3 + 1 / 2 * (4 * Real.sqrt 3 / 3) = Real.sqrt 3 by ring]
  rw [branch3_skip _ _ _ (by
    intro hc
    exact absurd hc.2 (by simpa [gStar] using not_le.2 sqrt3_gt_three_halves))]
  simp [dFinPre]

theorem length_lt_dFinPre : gStar.length < dFinPre.z := by
  rw [show gStar.length = (3 / 2 : ℝ) from rfl, show dFinPre.z = Real.sqrt 3 from rfl]
  exact sqrt3_gt_three_halves

theorem escape_stepDyn : stepDyn gStar fStar (stuckD 1000) = dFin := by
  rw [stepDyn, escape_postBranch, exitDyn_eq]
  rw [if_neg (show ¬(dFinPre.z < 0) from not_lt.2 sqrt3_nonneg),
    if_pos length_lt_dFinPre]
  simp [dFinPre, dFin]

theorem escape_stepAcc : stepAcc gStar fStar (stuckD 1000) (stuckA 1000) = aFin := by
  rw [stepAcc_eq, escape_postBranch, if_pos length_lt_dFinPre,
    if_pos length_lt_dFinPre]
  simp [stuckA, dFinPre, aFin]

theorem stuckD_notgone (i : ℕ) : (stuckD i).notgone = true := rfl

theorem launchState_notgone : launchState.notgone = true := rfl

theorem stuck_run : ∀ (m i : ℕ), 1 ≤ i → i + m = 1000 →
    runLoop gStar fStar (m + 2) (stuckD i) (stuckA i) = (dFin, aFin) := by
  intro m
  induction m with
  | zero =>
      intro i h1 h2
      have hi : i = 1000 := by omega
      subst hi
      rw [show (0 + 2 : ℕ) = 1 + 1 from rfl, runLoop, if_pos (stuckD_notgone 1000),
        escape_stepDyn, escape_stepAcc,
        runLoop_halted gStar fStar 1 dFin aFin (by simp [dFin])]
  | succ m ih =>
      intro i h1 h2
      rw [show m + 1 + 2 = (m + 2) + 1 from rfl, runLoop, if_pos (stuckD_notgone i),
        stuck_stepDyn i (by omega), stuck_stepAcc i (by omega)]
      exact ih (i + 1) (by omega) (by omega)

theorem star_runLoop : runLoop gStar fStar 1002 launchState (stuckA 0) = (dFin, aFin) := by
  rw [show (1002 : ℕ) = 1001 + 1 from rfl, runLoop, if_pos launchState_notgone,
    launch_stepDyn, launch_stepAcc, show (1001 : ℕ) = 999 + 2 from rfl]
  exact stuck_run 999 1 (by omega) (by omega)

theorem launchVz_star : addInitVz Acc.zero (launchVz gStar fStar 0) = stuckA 0 := by
  simp [addInitVz, Acc.zero, launchVz, stuckA, fStar_one, sampleCosTheta_34]

theorem clausingAccum_pStar : clausingAccum pStar fStar = aFin := by
  rw [clausingAccum, clausingAccumF, normGeo_pStar, show pStar.npart = 1 from rfl,
    simulateF, simulateF]
  simp only [simStepF]
  rw [launch_eval, launchVz_star, star_runLoop]

/-! ## The zero-escape run (for the `escaped_count == 0` edge case)

Same geometry and launch, but the single lower-wall draw `(3/4, 1/2)` gives
`phi = pi`, so the re-emitted direction has `vz = -sqrt 3 / 2 < 0` and the
particle leaves through the base plane (`z < 0`) on its first iteration:
the run ends with `iescape = 0`. -/

theorem ttr_down : timeToRadius (1 / 2 : ℝ) 0 1 1 = 4 := by
  unfold timeToRadius
  have h1 : (((1 : ℝ) / 2) ^ 2 + (0 : ℝ) ^ 2) * 1 ^ 2 - ((0 : ℝ) * 1) ^ 2 = 1 / 4 := by
    norm_num
  rw [h1, sqrt_quarter]
  norm_num

theorem neg_z_lt_one : -(5 * Real.sqrt 3 / 3) < 1 := by
  nlinarith [sqrt3_nonneg]

theorem neg_z_lt_zero : -(5 * Real.sqrt 3 / 3) < 0 := by
  nlinarith [one_lt_sqrt3]

theorem not_length_lt_neg_z : ¬(3 / 2 : ℝ) < -(5 * Real.sqrt 3 / 3) := by
  push_neg
  nlinarith [sqrt3_nonneg]

/-- The post-branch state of the zero-escape run's only iteration. -/
noncomputable def d3Pre : PDyn :=
  ⟨1, Real.sqrt 3 / 3, 1 / 2, 0, -(Real.sqrt 3 / 2), -(5 * Real.sqrt 3 / 3), 1, true, 5⟩

/-- The final trajectory state of the zero-escape run. -/
noncomputable def d3Fin : PDyn :=
  ⟨1, Real.sqrt 3 / 3, 1 / 2, 0, -(Real.sqrt 3 / 2), -(5 * Real.sqrt 3 / 3), 1, false, 5⟩

/-- The final accumulators of the zero-escape run: no escape, no exit
velocity, `vz0tot = 1/2` recorded at launch, nothing lost to the cutoff. -/
noncomputable def a3Fin : Acc := ⟨0, 0, 1 / 2, 0, 1⟩

theorem launch_eval3 : launchDyn gStar f3 0 = launchState := by
  simp only [launchDyn, launchState]
  rw [show (0 + 1 : ℕ) = 1 from rfl, show (0 + 2 : ℕ) = 2 from rfl,
    f3_zero, f3_one, f3_two, sampleCosTheta_34, st_of_half, Real.sqrt_zero,
    show 2 * Real.pi * (0 : ℝ) = 0 by ring, Real.cos_zero, Real.sin_zero,
    show gStar.r_bottom = (1 : ℝ) from rfl, mul_zero, one_mul, zero_mul, ttr_launch]
  simp
  ring

theorem down_postBranch : postBranch gStar f3 launchState = d3Pre := by
  rw [postBranch]
  have hd : ({ launchState with icount := launchState.icount + 1 } : PDyn).z <
      gStar.len_bottom := by
    simpa [launchState, gStar] using sqrt3_third_lt_one
  rw [branch1_apply _ _ _ hd]
  simp only [launchState]
  norm_num
  rw [f3_three, f3_four, sampleCosTheta_34, st_of_half,
    show 2 * Real.pi * (1 / 2 : ℝ) = Real.pi by ring, Real.cos_pi, Real.sin_pi,
    zero_mul, neg_one_mul, show gStar.r_bottom = (1 : ℝ) from rfl, ttr_down,
    show Real.sqrt 3 / 3 + 4 * -(Real.sqrt 3 / 2) = -(5 * Real.sqrt 3 / 3) by ring]
  rw [branch2_skip _ _ _ (by
    intro hc
    exact absurd hc.1 (by simpa [gStar] using not_le.2 neg_z_lt_one))]
  rw [branch3_skip _ _ _ (by
    intro hc
    exact absurd hc.1 (by simpa [gStar] using not_le.2 neg_z_lt_one))]
  simp [d3Pre]

theorem down_stepDyn : stepDyn gStar f3 launchState = d3Fin := by
  rw [stepDyn, down_postBranch, exitDyn_eq,
    if_pos (show d3Pre.z < 0 from neg_z_lt_zero)]
  simp [d3Pre, d3Fin]

theorem down_stepAcc : stepAcc gStar f3 launchState (stuckA 0) = a3Fin := by
  rw [stepAcc_eq, down_postBranch,
    if_neg (show ¬gStar.length < d3Pre.z from not_length_lt_neg_z),
    if_neg (show ¬gStar.length < d3Pre.z from not_length_lt_neg_z),
    if_neg (show ¬(1000 : ℕ) < d3Pre.icount by simp [d3Pre])]
  simp [stuckA, d3Pre, a3Fin]

theorem down_runLoop : runLoop gStar f3 1002 launchState (stuckA 0) = (d3Fin, a3Fin) := by
  rw [show (1002 : ℕ) = 1001 + 1 from rfl, runLoop, if_pos launchState_notgone,
    down_stepDyn, down_stepAcc,
    runLoop_halted gStar f3 1001 d3Fin a3Fin (by simp [d3Fin])]

theorem launchVz_f3 : addInitVz Acc.zero (launchVz gStar f3 0) = stuckA 0 := by
  simp [addInitVz, Acc.zero, launchVz, stuckA, f3_one, sampleCosTheta_34]

theorem clausingAccum_pStar_f3 : clausingAccum pStar f3 = a3Fin := by
  rw [clausingAccum, clausingAccumF, normGeo_pStar, show pStar.npart = 1 from rfl,
    simulateF, simulateF]
  simp only [simStepF]
  rw [launch_eval3, launchVz_f3, down_runLoop]

/-! ## Remaining claim theorems about the concrete runs -/

theorem clausingF_den_cor (p : ClausingParams) (f : ℕ → ℝ) :
    (clausingF p f).den_cor =
      FVal.div
        (FVal.div (FVal.fin (clausingAccum p f).vz0tot) (FVal.fin (p.npart : ℝ)))
        (FVal.div (FVal.fin (clausingAccum p f).vztot)
          (FVal.fin ((clausingAccum p f).iescape : ℝ))) := rfl

theorem clausingF_max_count (p : ClausingParams) (f : ℕ → ℝ) :
    (clausingF p f).max_count = (clausingAccum p f).max_count := rfl

/-- Claim C3 (settled as a code bug): when the escape count is zero at the
end of a run, `clausing` does not surface any explicit error: the 0.0/0.0
division makes `vzav` NaN, `den_cor` is NaN by propagation, and the result
record is returned normally (its other fields populated).  The concrete run
has `npart = 1` and its particle absorbed at the base, so `iescape = 0`. -/
theorem zero_escape_silent_nan :
    (clausingAccum pStar f3).iescape = 0 ∧
    vzAvgF pStar f3 = FVal.nan ∧
    (clausingF pStar f3).den_cor = FVal.nan ∧
    (clausingF pStar f3).max_count = 1 := by
  refine ⟨by rw [clausingAccum_pStar_f3]; rfl, ?_, ?_, by
    rw [clausingF_max_count, clausingAccum_pStar_f3]; rfl⟩
  · rw [vzAvgF, clausingAccum_pStar_f3]
    simp [a3Fin, FVal.div]
  · rw [clausingF_den_cor, clausingAccum_pStar_f3]
    have hinner : FVal.div (FVal.fin a3Fin.vztot) (FVal.fin (a3Fin.iescape : ℝ)) =
        FVal.nan := by simp [a3Fin, FVal.div]
    rw [hinner, FVal.div_nan]

/-- Stream for the lower-wall resampling check: `costheta` draw `3/4`
(giving `costheta = 1/2`), `phi` draw `1/4` (giving `phi = pi/2`). -/
noncomputable def f7 : ℕ → ℝ := fun n => if n = 0 then 3 / 4 else 1 / 4

/-- Claim C7 (counterexample): the lower-wall re-emission does not use the
launcher's assignment pattern.  At draws `(3/4, 1/4)` the code's branch
gives `vz = cos(phi)*sintheta = 0` and `vx = costheta = 1/2`, whereas the
claimed pattern (`vx = cos(phi)*sintheta`, `vz = costheta`) would give
`vz = 1/2` and `vx = 0`. -/
theorem lower_wall_not_launcher_pattern :
    (branch1 gStar f7 dEx).vz ≠ sampleCosTheta (f7 dEx.k) ∧
    (branch1 gStar f7 dEx).vx ≠
      Real.cos (2 * Real.pi * f7 (dEx.k + 1)) *
        Real.sqrt (1 - sampleCosTheta (f7 dEx.k) ^ 2) := by
  have h : dEx.z < gStar.len_bottom := by
    show (0 : ℝ) < 1
    norm_num
  have hc : sampleCosTheta (f7 dEx.k) = 1 / 2 := by
    rw [show f7 dEx.k = (3 / 4 : ℝ) from rfl, sampleCosTheta_34]
  have hcl : Real.cos (2 * Real.pi * f7 (dEx.k + 1)) *
      Real.sqrt (1 - sampleCosTheta (f7 dEx.k) ^ 2) = 0 := by
    rw [hc, show f7 (dEx.k + 1) = (1 / 4 : ℝ) from rfl, st_of_half,
      show 2 * Real.pi * (1 / 4 : ℝ) = Real.pi / 2 by ring,
      Real.cos_pi_div_two, zero_mul]
  have hvz : (branch1 gStar f7 dEx).vz = 0 := by
    rw [branch1_apply gStar f7 dEx h]
    exact hcl
  have hvx : (branch1 gStar f7 dEx).vx = 1 / 2 := by
    rw [branch1_apply gStar f7 dEx h]
    exact hc
  constructor
  · rw [hvz, hc]; norm_num
  · rw [hvx, hcl]; norm_num

/-- Claim C5 (counterexample): the trajectory loop can execute 1001
iterations, not 1000: in the concrete `pStar`/`fStar` run the returned
`max_count` — which equals the iteration count the particle's loop reached —
is 1001. -/
theorem loop_runs_1001_iterations :
    (clausing pStar fStar).max_count = 1001 ∧ 1000 < (clausing pStar fStar).max_count := by
  have h : (clausing pStar fStar).max_count = 1001 := by
    rw [clausing_max_count, clausingAccum_pStar]; rfl
  exact ⟨h, by rw [h]; omega⟩

/-- Claim C5 (amended): from a fresh particle state the trajectory loop
always terminates — for every geometry and every random stream — and
executes at most 1001 body iterations: the `icount > 1000` check fires
during the 1001st. -/
theorem loop_iteration_bound (g : Geo) (f : ℕ → ℝ) (d : PDyn) (a : Acc)
    (_hngo : d.notgone = true) (hic : d.icount = 0) :
    (runLoop g f 1002 d a).1.notgone = false ∧
    (runLoop g f 1002 d a).1.icount ≤ 1001 := by
  constructor
  · exact runLoop_halts g f 1002 d a (fun _ => by omega) (by omega)
  · exact runLoop_icount_le g f 1002 d a (fun _ => by omega) (by omega)

theorem loop_iteration_bound_witness :
    dEx.notgone = true ∧ dEx.icount = 0 ∧
      ((runLoop (normGeo pEx) fEx 1002 dEx Acc.zero).1.notgone = false ∧
        (runLoop (normGeo pEx) fEx 1002 dEx Acc.zero).1.icount ≤ 1001) :=
  ⟨rfl, rfl, loop_iteration_bound (normGeo pEx) fEx dEx Acc.zero rfl rfl⟩

/-- Claim C6 (counterexample): a particle that exceeds the cutoff can
simultaneously be counted as escaped.  In the concrete `pStar`/`fStar` run
with a single particle, the run ends with `nlost = 1` and `iescape = 1`,
and the particle's exit `vz = 1/2` is in the exit-velocity sum: the same
particle was counted both stuck and escaped. -/
theorem stuck_particle_also_escapes :
    pStar.npart = 1 ∧ (clausing pStar fStar).nlost = 1 ∧
      (clausingAccum pStar fStar).iescape = 1 ∧
      (clausingAccum pStar fStar).vztot = 1 / 2 := by
  refine ⟨rfl, ?_, ?_, ?_⟩
  · rw [clausing_nlost, clausingAccum_pStar]; rfl
  · rw [clausingAccum_pStar]; rfl
  · rw [clausingAccum_pStar]; rfl

end Clausing
